import Mathlib

/-!
Verification development for the quicksql core (src/quicksql/core and
src/quicksql/parsers).  Python strings are embedded as `List Char`
(`PyStr`), Python `dict`s as insertion-ordered association lists whose
update semantics (`pySet`, `pyUpdate`) mirror `d[k] = v` and
`d.update(e)` / `{**d, **e}`, and fallible Python code as `Except`.
Each definition is translated from the named source function.
-/

set_option autoImplicit false

/-- Python `str` embedded as a list of characters. -/
abbrev PyStr := List Char

/-- View a Lean string literal as an embedded Python string. -/
def strL (s : String) : PyStr := s.data

/-- Python's `\s` / `str.strip` whitespace class (ASCII part, which is all
the repository's inputs use): space, tab, newline, carriage return,
vertical tab, form feed. -/
def pyIsWS (c : Char) : Bool :=
  c = ' ' || c = '\t' || c = '\n' || c = '\r' || c = '\x0b' || c = '\x0c'

/-- Python `str.lower` (ASCII case mapping, via `Char.toLower`). -/
def pyLower (s : PyStr) : PyStr := s.map Char.toLower

/-- Python `str.startswith`. -/
def startsWithS : PyStr → PyStr → Bool
  | _, [] => true
  | [], _ :: _ => false
  | c :: t, p :: q => c = p && startsWithS t q

/-- Python `str.endswith`. -/
def endsWithS (s suf : PyStr) : Bool := startsWithS s.reverse suf.reverse

/-- Drop trailing whitespace (the right half of Python `str.strip`). -/
def stripRightS (s : PyStr) : PyStr := (s.reverse.dropWhile pyIsWS).reverse

/-- Python `str.strip()`: drop leading and trailing whitespace. -/
def pyStrip (s : PyStr) : PyStr := stripRightS (s.dropWhile pyIsWS)

/-- Helper for `pySplitlines`: accumulates the current (reversed) line. -/
def splitlinesAux : PyStr → PyStr → List PyStr
  | [], acc => match acc with
    | [] => []
    | _ => [acc.reverse]
  | '\n' :: t, acc => acc.reverse :: splitlinesAux t []
  | c :: t, acc => splitlinesAux t (c :: acc)

/-- Python `str.splitlines()` for LF-separated text (the repository's
documents): no trailing empty line for text ending in a newline, and
`[]` for the empty string. -/
def pySplitlines (s : PyStr) : List PyStr := splitlinesAux s []

/-- Python `"\n".join(...)`. -/
def joinNl : List PyStr → PyStr
  | [] => []
  | [x] => x
  | x :: rest => x ++ '\n' :: joinNl rest

/-- Python `".".join(...)` (used for pydantic error locations). -/
def joinDot : List PyStr → PyStr
  | [] => []
  | [x] => x
  | x :: rest => x ++ '.' :: joinDot rest

/-- Python dict lookup `d.get(k)` on an insertion-ordered association
list.  Keys are unique in every dict the code builds, so the first
match is the binding. -/
def pyGet? {α β : Type} [DecidableEq α] : List (α × β) → α → Option β
  | [], _ => none
  | (k, v) :: t, a => if k = a then some v else pyGet? t a

/-- Python dict assignment `d[k] = v`: overwrite in place if the key is
present (keeping its position), otherwise append at the end. -/
def pySet {α β : Type} [DecidableEq α] : List (α × β) → α → β → List (α × β)
  | [], k, v => [(k, v)]
  | (k', v') :: t, k, v => if k' = k then (k, v) :: t else (k', v') :: pySet t k v

/-- Python `d.update(e)` / `{**d, **e}`: apply every binding of `e` to
`d`, in order. -/
def pyUpdate {α β : Type} [DecidableEq α] (d e : List (α × β)) : List (α × β) :=
  e.foldl (fun acc p => pySet acc p.1 p.2) d

/-- The keys of an association list, in order. -/
def keysOf {α β : Type} (d : List (α × β)) : List α := d.map (·.1)

/-- Well-formedness of a Python dict: its keys are pairwise distinct.
Every dict actually built by the code satisfies this. -/
def NoDupKeys {α β : Type} (d : List (α × β)) : Prop := (keysOf d).Nodup

/-- Left-biased choice on `Option` (Python's "later assignment wins",
read right to left). -/
def oAlt {β : Type} (a b : Option β) : Option β :=
  match a with
  | some v => some v
  | none => b

/-- The last `some` of a list of options: the value written by the last
writer, used to state dict-merge precedence. -/
def lastSome {β : Type} : List (Option β) → Option β
  | [] => none
  | o :: t => oAlt (lastSome t) o

/-! ## ConnectionResolver (src/quicksql/core/models.py) -/

/-- `models._is_duckdb`: match `.ddb`, `.duckdb` files, or `:memory:`
(source: `path = conn.lower().strip()`). -/
def isDuckdbConn (conn : PyStr) : Bool :=
  let path := pyStrip (pyLower conn)
  endsWithS path (strL ".ddb") || endsWithS path (strL ".duckdb") ||
    path = strL ":memory:"

/-- `models._is_bigquery`: match `bigquery://`-prefixed connection
strings (source: `conn.strip().lower().startswith("bigquery://")`). -/
def isBigqueryConn (conn : PyStr) : Bool :=
  startsWithS (pyLower (pyStrip conn)) (strL "bigquery://")

/-- `ConnectionResolver._resolvers` after the module-level registrations
in models.py: DuckDB first, then BigQuery, in registration order. -/
def connResolvers : List ((PyStr → Bool) × PyStr) :=
  [(isDuckdbConn, strL "duckdb"), (isBigqueryConn, strL "bigquery")]

/-- `ConnectionResolver._get_supported_formats`. -/
def supportedFormats : PyStr :=
  strL "  - DuckDB: .ddb, .duckdb, :memory:\n  - BigQuery: bigquery://project_id or bigquery://project_id/location"

/-- The ValueError message raised when no resolver matches. -/
def cannotInferMsg (s : PyStr) : PyStr :=
  strL "Cannot infer backend from connection string: '" ++ s ++
    strL "'\nSupported formats:\n" ++ supportedFormats

/-- The matcher loop in `ConnectionResolver.resolve`: first matching
resolver wins; no match raises `ValueError`. -/
def resolveWith : List ((PyStr → Bool) × PyStr) → PyStr → Except PyStr PyStr
  | [], s => .error (cannotInferMsg s)
  | (m, bn) :: rest, s => if m s then .ok bn else resolveWith rest s

/-- `ConnectionResolver.resolve` with the built-in registrations. -/
def resolveConn (s : PyStr) : Except PyStr PyStr := resolveWith connResolvers s

/-! ## Configuration values and pydantic models (src/quicksql/core/models.py)

Python values appearing in cell configs are embedded as `Val`: strings,
integers, `None`, nested dicts, and `InputConfig` instances (which
`parse_input` may store back into the config). -/

inductive Val : Type where
  | vstr : PyStr → Val
  | vint : Int → Val
  | vnone : Val
  | vdict : List (PyStr × Val) → Val
  | vinput : PyStr → PyStr → Val

/-- A Python config dict: keys to embedded values. -/
abbrev PyDict := List (PyStr × Val)

/-- Python `str(v)` for the values that can appear as an explicit
connection string (`parse_input` applies `str` to the dict value). -/
def pyToStr : Val → PyStr
  | .vstr s => s
  | .vint n => strL (toString n)
  | .vnone => strL "None"
  | .vdict _ => strL "<dict>"
  | .vinput b c => b ++ ':' :: c

/-- Python `type(v).__name__` for the `parse_input` error message. -/
def pyTypeName : Val → PyStr
  | .vstr _ => strL "str"
  | .vint _ => strL "int"
  | .vnone => strL "NoneType"
  | .vdict _ => strL "dict"
  | .vinput _ _ => strL "InputConfig"

/-- `models.InputConfig`: resolved backend name plus connection string. -/
structure InputConfig where
  backend_name : PyStr
  connection_string : PyStr
deriving DecidableEq

/-- `models.CellConfig`: validated cell configuration. -/
structure CellConfig where
  input : Option InputConfig
  output : Option PyStr
deriving DecidableEq

/-- The key string `"input"`. -/
def inputK : PyStr := strL "input"

/-- The key string `"backend_name"`. -/
def backendNameK : PyStr := strL "backend_name"

/-- Python `", ".join(...)`, for the list repr in error messages. -/
def joinCommas : List PyStr → PyStr
  | [] => []
  | [x] => x
  | x :: rest => x ++ strL ", " ++ joinCommas rest

/-- Python `repr` of a list of strings, e.g. `['a', 'b']`. -/
def listReprKeys (ks : List PyStr) : PyStr :=
  '[' :: joinCommas (ks.map (fun k => '\'' :: k ++ ['\''])) ++ [']']

/-- Message for a multi-entry explicit input mapping. -/
def multiBackendMsg (d : List (PyStr × Val)) : PyStr :=
  strL "Explicit input config must have exactly one backend, got " ++
    strL (toString d.length) ++ strL ": " ++ listReprKeys (keysOf d)

/-- Message for an input value of an unsupported type. -/
def invalidInputMsg (v : Val) : PyStr :=
  strL "Invalid input format: expected string or dict, got " ++ pyTypeName v

/-- `CellConfig.parse_input`, the `mode="before"` model validator:
normalize the raw `input` value.  Order of checks follows the source:
absent/None pass through; a dict containing `"backend_name"` passes
through; an `InputConfig` instance passes through; a bare string is
resolved; any other dict must have exactly one entry; anything else is
a `ValueError` (the `Except.error` carries the message). -/
def parse_input (data : PyDict) : Except PyStr PyDict :=
  match pyGet? data inputK with
  | none => .ok data
  | some .vnone => .ok data
  | some raw =>
    match raw with
    | .vdict d =>
      if (pyGet? d backendNameK).isSome then .ok data
      else
        match d with
        | [(bn, cs)] => .ok (pySet data inputK (.vinput bn (pyToStr cs)))
        | _ => .error (multiBackendMsg d)
    | .vinput _ _ => .ok data
    | .vstr s =>
      match resolveConn s with
      | .ok bn => .ok (pySet data inputK (.vinput bn s))
      | .error e => .error e
    | v => .error (invalidInputMsg v)

/-- One entry of pydantic's `ValidationError.errors()`: location tuple,
message, and the offending input value. -/
structure FieldError where
  loc : List PyStr
  msg : PyStr
  input : Val

/-- Errors pydantic reports for one required string field of a nested
`InputConfig` value: none if the value is a string, a string-type error
if it has another type, a missing-field error if absent. -/
def strFieldErrs (fieldName : PyStr) (v : Option Val) (whole : Val) : List FieldError :=
  match v with
  | some (.vstr _) => []
  | some w => [⟨[inputK, fieldName], strL "Input should be a valid string", w⟩]
  | none => [⟨[inputK, fieldName], strL "Field required", whole⟩]

/-- Field validation of the (already normalized) `input` value against
`InputConfig | None`, reporting one error per offending field as
pydantic does. -/
def validateInputField : Option Val → Except (List FieldError) (Option InputConfig)
  | none => .ok none
  | some .vnone => .ok none
  | some (.vinput bn cs) => .ok (some ⟨bn, cs⟩)
  | some (.vdict d) =>
    match pyGet? d backendNameK, pyGet? d (strL "connection_string") with
    | some (.vstr bn), some (.vstr cs) => .ok (some ⟨bn, cs⟩)
    | b, c =>
      .error ((strFieldErrs (strL "backend_name") b (Val.vdict d)) ++
        (strFieldErrs (strL "connection_string") c (Val.vdict d)))
  | some v =>
    .error [⟨[inputK], strL "Input should be a valid dictionary or instance of InputConfig", v⟩]

/-- Field validation of the `output` value against `str | None`. -/
def validateOutputField : Option Val → Except (List FieldError) (Option PyStr)
  | none => .ok none
  | some .vnone => .ok none
  | some (.vstr s) => .ok (some s)
  | some v => .error [⟨[strL "output"], strL "Input should be a valid string", v⟩]

/-- `CellConfig.model_validate`.  pydantic v2 first runs the
`mode="before"` model validator; a `ValueError` raised there is wrapped
into a `ValidationError` with a single entry whose `loc` is the empty
tuple and whose message is prefixed `"Value error, "` (so the plain
`ValueError` never escapes `model_validate`).  Then each declared field
is validated, collecting one error per offending field; extra keys are
ignored (pydantic's default). -/
def cellConfigModelValidate (config : PyDict) : Except (List FieldError) CellConfig :=
  match parse_input config with
  | .error msg => .error [⟨[], strL "Value error, " ++ msg, .vdict config⟩]
  | .ok data =>
    match validateInputField (pyGet? data inputK),
          validateOutputField (pyGet? data (strL "output")) with
    | .ok i, .ok o => .ok ⟨i, o⟩
    | .error ei, .ok _ => .error ei
    | .ok _, .error eo => .error eo
    | .error ei, .error eo => .error (ei ++ eo)

/-! ## Error aggregation (src/quicksql/core/errors.py) and
`validate_cells` (src/quicksql/core/executor.py) -/

/-- `errors.CellValidationError`: one validation error for one field of
one cell. -/
structure CellValidationError where
  cell_name : PyStr
  cell_start_line : Nat
  field_path : PyStr
  message : PyStr
  invalid_value : Option Val

/-- A cell block as produced by `QsqlFile.cell_blocks`. -/
structure CellBlock where
  cell_name : PyStr
  cell_start : Nat
  cell_end : Nat
  text : PyStr

/-- A cell as produced by `QsqlFile.parsed_cells`: a cell block plus its
merged config. -/
structure ParsedCell where
  cell_name : PyStr
  cell_start : Nat
  cell_end : Nat
  text : PyStr
  config : PyDict

/-- A cell as produced by `validate_cells`: a parsed cell plus
`validated_config` (`none` when validation failed for that cell). -/
structure ValidatedCell where
  cell_name : PyStr
  cell_start : Nat
  cell_end : Nat
  text : PyStr
  config : PyDict
  validated_config : Option CellConfig

/-- A document handed to the executor, represented by its ordered
`parsed_cells` sequence (the only part of `QsqlFile` that
`validate_cells` and the executor read; the file path only labels the
aggregated report). -/
abbrev FileModel := List ParsedCell

/-- The body of `validate_cells` for one cell: on success attach the
validated config; on a pydantic `ValidationError` convert each entry to
a `CellValidationError` (field path = the dot-joined `loc`) and attach
a `none` config.  The source also has an `except ValueError` branch
meant for `ConnectionResolver` errors (field path `"input"`), but that
branch is unreachable: pydantic v2 wraps a `ValueError` raised inside
the `mode="before"` model validator into a `ValidationError` (with
empty `loc`), which the first branch catches. -/
def validateCell (pc : ParsedCell) : ValidatedCell × List CellValidationError :=
  match cellConfigModelValidate pc.config with
  | .ok cfg =>
    (⟨pc.cell_name, pc.cell_start, pc.cell_end, pc.text, pc.config, some cfg⟩, [])
  | .error ferrs =>
    (⟨pc.cell_name, pc.cell_start, pc.cell_end, pc.text, pc.config, none⟩,
      ferrs.map (fun fe =>
        ⟨pc.cell_name, pc.cell_start, joinDot fe.loc, fe.msg, some fe.input⟩))

/-- The loop of `validate_cells`: every cell is processed regardless of
earlier failures; errors are collected in cell order. -/
def validateCellsCore : FileModel → List ValidatedCell × List CellValidationError
  | [] => ([], [])
  | pc :: rest =>
    let (vc, errs) := validateCell pc
    let (vcs, errss) := validateCellsCore rest
    (vc :: vcs, errs ++ errss)

/-- `executor.validate_cells`: after all cells are processed, raise the
aggregated collection iff validation was not skipped and at least one
error was collected; otherwise return the full per-cell list. -/
def validate_cells (f : FileModel) (skip_validation : Bool) :
    Except (List CellValidationError) (List ValidatedCell) :=
  let (vcs, errs) := validateCellsCore f
  if skip_validation = false && !(errs.isEmpty) then .error errs else .ok vcs

/-- The 1-based line number `QsqlConfigError.__str__` renders for a
cell's error group (source: `line {first_error.cell_start_line + 1}`). -/
def renderedLineNumber (e : CellValidationError) : Nat := e.cell_start_line + 1

/-! ## Document model (src/quicksql/core/file.py) -/

/-- One attempt of the cell-marker regex `--\s*?name:\s*?(\S+)\s*?` at a
fixed start position: `--`, then the (forced, since whitespace cannot
begin `name:`) run of whitespace, then `name:`, then the whitespace run,
then a nonempty maximal run of non-whitespace as the captured group. -/
def markerAt : PyStr → Option PyStr
  | '-' :: '-' :: rest =>
    let r1 := rest.dropWhile pyIsWS
    if startsWithS r1 (strL "name:") then
      let r2 := (r1.drop 5).dropWhile pyIsWS
      let tok := r2.takeWhile (fun c => !(pyIsWS c))
      if tok.isEmpty then none else some tok
    else none
  | _ => none

/-- `re.search` with the cell-marker pattern: try every start position
left to right, returning the first captured name. -/
def findMarker : PyStr → Option PyStr
  | [] => none
  | c :: t =>
    match markerAt (c :: t) with
    | some tok => some tok
    | none => findMarker t

/-- `QsqlFile.lines`: 0-based line numbers paired with line text. -/
def linesOf (content : PyStr) : List (Nat × PyStr) := (pySplitlines content).enum

/-- The reverse scan inside `QsqlFile.cell_blocks`: walk the lines last
to first; every marker line closes the block that runs up to (and
excluding) `last`, which then moves to the marker's line.  One block is
appended per marker line — names are never checked for uniqueness. -/
def cellBlocksGo (lines : List (Nat × PyStr)) :
    List (Nat × PyStr) → Nat → List CellBlock
  | [], _ => []
  | (ln, txt) :: rest, last =>
    match findMarker txt with
    | some tok =>
      ⟨tok, ln, last - 1,
        joinNl (((lines.drop ln).take (last - ln)).map (·.2))⟩ ::
        cellBlocksGo lines rest ln
    | none => cellBlocksGo lines rest last

/-- `QsqlFile.cell_blocks`. -/
def qsqlCellBlocks (content : PyStr) : List CellBlock :=
  (cellBlocksGo (linesOf content) (linesOf content).reverse
    (linesOf content).length).reverse

/-- `QsqlFile.header`: all text before the first cell block, or the full
content when there are no cells. -/
def qsqlHeader (content : PyStr) : PyStr :=
  match qsqlCellBlocks content with
  | [] => content
  | fb :: _ => joinNl (((linesOf content).take fb.cell_start).map (·.2))

/-- A registered annotation parser, embedded as its `parse` function
(text to config dict). -/
abbrev ParserF := PyStr → PyDict

/-- `QsqlFile.parsed_header`: each parser's output of the header text,
applied in registration order into one running dict. -/
def qsqlParsedHeader (parsers : List ParserF) (header : PyStr) : PyDict :=
  parsers.foldl (fun acc p => pyUpdate acc (p header)) []

/-- The per-cell `parsed_config` loop of `QsqlFile.parsed_cells`: each
parser's output of the cell text, applied in registration order. -/
def cellLocalConfig (parsers : List ParserF) (text : PyStr) : PyDict :=
  parsers.foldl (fun acc p => pyUpdate acc (p text)) []

/-- The merged config `{**self.parsed_header, **parsed_config}` of one
cell in `QsqlFile.parsed_cells`: header values first, then cell-local
values on top. -/
def mergedCellConfig (parsers : List ParserF) (header text : PyStr) : PyDict :=
  pyUpdate (qsqlParsedHeader parsers header) (cellLocalConfig parsers text)

/-- `QsqlFile.parsed_cells`. -/
def qsqlParsedCells (parsers : List ParserF) (content : PyStr) : FileModel :=
  (qsqlCellBlocks content).map (fun cb =>
    ⟨cb.cell_name, cb.cell_start, cb.cell_end, cb.text,
      mergedCellConfig parsers (qsqlHeader content) cb.text⟩)

/-! ## Executor (src/quicksql/core/executor.py)

Backend instances are external collaborators; the observable part of a
cached instance is the pair it was connected with, and `execute` on it
is embedded as the opaque record `RunResult.run backend conn query`.
Calls to `Backend.connect` are recorded as events so they can be
counted. -/

/-- The backend names registered in src/quicksql/core/manager.py. -/
def registeredBackends : List PyStr := [strL "duckdb", strL "bigquery"]

/-- The outcome of `backend.execute(query)` on the instance cached for
`(backend_name, connection_string)`. -/
structure RunResult where
  backend_name : PyStr
  connection_string : PyStr
  query : PyStr
deriving DecidableEq

/-- The exceptions `execute_cell` can raise: unknown cell name, a cell
whose validated config is `None` (the `AttributeError` from
`None.input`), a config without `input`, and
`BackendRegistry.get_backend` on an unregistered name. -/
inductive ExecErr : Type where
  | notFound : PyStr → ExecErr
  | noneConfig : PyStr → ExecErr
  | noInput : PyStr → ExecErr
  | notRegistered : PyStr → ExecErr
deriving DecidableEq

/-- Observable side effects of the pipeline: a `Backend.connect` call,
the logging decorator's three messages, and the output decorator's
parquet write. -/
inductive Ev : Type where
  | connect : PyStr → PyStr → Ev
  | logExecuting : PyStr → Ev
  | logCompleted : PyStr → Ev
  | logFailed : PyStr → Ev
  | wrote : PyStr → PyStr → Ev
deriving DecidableEq

/-- Number of `Backend.connect` calls among a list of events. -/
def connectCount (evs : List Ev) : Nat :=
  (evs.filter fun e => match e with | .connect _ _ => true | _ => false).length

/-- `executor.BaseExecutor`'s state: the document (as its parsed cells),
the validated cell list, the by-name index, the connection cache
(cache key to the `(backend_name, connection_string)` the cached
instance was connected with), and the stored validation mode. -/
structure BaseExec where
  file : FileModel
  vcells : List ValidatedCell
  cells : List (PyStr × ValidatedCell)
  conns : List (PyStr × (PyStr × PyStr))
  skip_validation : Bool

/-- The cache key `f"{backend_name}:{conn_string}"`. -/
def cacheKey (bn cs : PyStr) : PyStr := bn ++ ':' :: cs

/-- The by-name index `{cell["cell_name"]: cell for cell in
validated_cells}` built by `BaseExecutor.__init__` (a later cell with
the same name overwrites an earlier one). -/
def cellsByName (vcs : List ValidatedCell) : List (PyStr × ValidatedCell) :=
  vcs.foldl (fun d c => pySet d c.cell_name c) []

/-- `BaseExecutor.__init__`. -/
def mkBase (f : FileModel) (vcs : List ValidatedCell) (skip : Bool) : BaseExec :=
  ⟨f, vcs, cellsByName vcs, [], skip⟩

/-- `BaseExecutor._get_or_create_backend`: return the cached instance
for the key, otherwise look the backend up in the registry (only on a
cache miss, as in the source), connect a fresh instance, and cache it. -/
def getOrCreateBackend (st : BaseExec) (bn cs : PyStr) :
    Except ExecErr ((PyStr × PyStr) × BaseExec × List Ev) :=
  match pyGet? st.conns (cacheKey bn cs) with
  | some inst => .ok (inst, st, [])
  | none =>
    if bn ∈ registeredBackends then
      .ok ((bn, cs),
        { st with conns := pySet st.conns (cacheKey bn cs) (bn, cs) },
        [.connect bn cs])
    else .error (.notRegistered bn)

/-- `BaseExecutor.execute_cell`. -/
def executeCellB (st : BaseExec) (n : PyStr) :
    Except ExecErr RunResult × BaseExec × List Ev :=
  match pyGet? st.cells n with
  | none => (.error (.notFound n), st, [])
  | some cell =>
    match cell.validated_config with
    | none => (.error (.noneConfig n), st, [])
    | some cfg =>
      match cfg.input with
      | none => (.error (.noInput n), st, [])
      | some inp =>
        match getOrCreateBackend st inp.backend_name inp.connection_string with
        | .ok (inst, st', ev) => (.ok ⟨inst.1, inst.2, cell.text⟩, st', ev)
        | .error e => (.error e, st, [])

/-- `BaseExecutor.get_cell_config`. -/
def getCellConfigB (st : BaseExec) (n : PyStr) : Option CellConfig :=
  match pyGet? st.cells n with
  | none => none
  | some cell => cell.validated_config

/-- `BaseExecutor.refresh`: `self._file` is assigned first; if
revalidation raises, the old validated cells, by-name index and
connection cache all stay in place (the assignments after the raising
call never run). -/
def refreshB (st : BaseExec) (f : FileModel) :
    Except (List CellValidationError) Unit × BaseExec :=
  match validate_cells f st.skip_validation with
  | .ok vcs => (.ok (), { st with file := f, vcells := vcs, cells := cellsByName vcs })
  | .error errs => (.error errs, { st with file := f })

/-- `ExecutorBuilder.build` up to the base component: eager validation,
then `BaseExecutor.__init__`. -/
def buildBase (f : FileModel) (skip : Bool) :
    Except (List CellValidationError) BaseExec :=
  match validate_cells f skip with
  | .ok vcs => .ok (mkBase f vcs skip)
  | .error errs => .error errs

/-- An executor chain: the base plus any stack of the two built-in
decorators (`LoggingDecorator`, `OutputDecorator`); the outermost
constructor is the link callers hold. -/
inductive Exec : Type where
  | base : BaseExec → Exec
  | logging : Exec → Exec
  | output : Exec → Exec

/-- The base component at the bottom of a chain. -/
def baseOf : Exec → BaseExec
  | .base b => b
  | .logging i => baseOf i
  | .output i => baseOf i

/-- Replace the base component at the bottom of a chain, keeping the
decorator stack. -/
def setBase : Exec → BaseExec → Exec
  | .base _, b => .base b
  | .logging i, b => .logging (setBase i b)
  | .output i, b => .output (setBase i b)

/-- `get_cell_config` on any link: decorators delegate to the wrapped
component. -/
def getCellConfigE : Exec → PyStr → Option CellConfig
  | .base b, n => getCellConfigB b n
  | .logging i, n => getCellConfigE i n
  | .output i, n => getCellConfigE i n

/-- `execute_cell` on any link.  The base executes; `LoggingDecorator`
logs, delegates, logs completion or failure and re-raises;
`OutputDecorator` delegates, then on success writes the result to the
cell's configured output directory if one is set. -/
def executeCellE : Exec → PyStr → Except ExecErr RunResult × Exec × List Ev
  | .base b, n =>
    let (r, b', ev) := executeCellB b n
    (r, .base b', ev)
  | .logging inner, n =>
    let (r, inner', ev) := executeCellE inner n
    match r with
    | .ok v => (.ok v, .logging inner', .logExecuting n :: ev ++ [.logCompleted n])
    | .error e => (.error e, .logging inner', .logExecuting n :: ev ++ [.logFailed n])
  | .output inner, n =>
    let (r, inner', ev) := executeCellE inner n
    match r with
    | .ok v =>
      match getCellConfigE inner' n with
      | some cfg =>
        match cfg.output with
        | some dir => (.ok v, .output inner', ev ++ [.wrote dir n])
        | none => (.ok v, .output inner', ev)
      | none => (.ok v, .output inner', ev)
    | .error e => (.error e, .output inner', ev)

/-- `refresh` on any link: decorators delegate to the wrapped
component. -/
def refreshE : Exec → FileModel → Except (List CellValidationError) Unit × Exec
  | .base b, f =>
    let (r, b') := refreshB b f
    (r, .base b')
  | .logging i, f =>
    let (r, i') := refreshE i f
    (r, .logging i')
  | .output i, f =>
    let (r, i') := refreshE i f
    (r, .output i')

/-- `execute_many` as written in both `BaseExecutor` and
`ExecutorDecorator`: the dict comprehension
`{name: self.execute_cell(name) for name in cell_names}`, evaluated
left to right through the link's own `execute_cell`. -/
def executeManyE (e : Exec) (names : List PyStr) :
    List (PyStr × Except ExecErr RunResult) × Exec × List Ev :=
  names.foldl
    (fun acc n =>
      let (r, ex', ev) := executeCellE acc.2.1 n
      (pySet acc.1 n r, ex', acc.2.2 ++ ev))
    ([], e, [])

/-- One-at-a-time execution through a link's own `execute_cell`: the
sequence of `(name, result, events)` triples, threading the executor
state.  This is the reference behavior `execute_many` must match, and
also the watcher's per-cell execution loop (whose `try/except` records
a failure and continues). -/
def callSeq : Exec → List PyStr → List (PyStr × Except ExecErr RunResult × List Ev) × Exec
  | e, [] => ([], e)
  | e, n :: rest =>
    let (r, e', ev) := executeCellE e n
    let (l, e'') := callSeq e' rest
    ((n, r, ev) :: l, e'')

/-! ## File watcher (src/quicksql/core/watcher.py)

Only the body run on an accepted modification notification is embedded
(the path filter and the 1-second debounce gate what reaches it).  The
new `QsqlFile` snapshot is represented by its parsed cells. -/

/-- `QsqlFileEventHandler`'s mutable state relevant to the diff:
`previous_cells` (name to raw text) and the executor chain. -/
structure Watcher where
  previous_cells : List (PyStr × PyStr)
  executor : Exec

/-- The dict `{cell["cell_name"]: cell["text"] for cell in
parsed_cells}` built inside `_detect_changed_cells`. -/
def currentCellsOf (parsed : FileModel) : List (PyStr × PyStr) :=
  parsed.foldl (fun d c => pySet d c.cell_name c.text) []

/-- `QsqlFileEventHandler._detect_changed_cells`: names now present but
previously absent ("added") or present with different text ("changed")
are collected, in current-document order, as the execute set; names
previously present but now absent are only reported ("removed"); the
remembered mapping is replaced by the new full mapping before anything
is executed.  Returns `(changed, removed, new previous_cells)`. -/
def detectChangedCells (prev : List (PyStr × PyStr)) (parsed : FileModel) :
    List PyStr × List PyStr × List (PyStr × PyStr) :=
  let current := currentCellsOf parsed
  let changed := (current.filter fun p =>
      match pyGet? prev p.1 with
      | none => true
      | some t => decide (t ≠ p.2)).map (·.1)
  let removed := (prev.filter fun p => (pyGet? current p.1).isNone).map (·.1)
  (changed, removed, current)

/-- The accepted branch of `QsqlFileEventHandler.on_modified`: refresh
the executor from the new snapshot (a strict-mode validation failure
propagates out of the handler before the diff runs), then diff, then
execute every changed cell individually, each wrapped in `try/except`
so one failure never stops the rest of the batch.  Returns the updated
watcher, the execute set, the removed names, and the per-cell
outcomes. -/
def onModifiedAccepted (w : Watcher) (newParsed : FileModel) :
    Except (List CellValidationError × Watcher)
      (Watcher × List PyStr × List PyStr ×
        List (PyStr × Except ExecErr RunResult)) :=
  match refreshE w.executor newParsed with
  | (.error errs, ex') => .error (errs, { w with executor := ex' })
  | (.ok _, ex') =>
    let (changed, removed, current) := detectChangedCells w.previous_cells newParsed
    let (trips, ex'') := callSeq ex' changed
    .ok (⟨current, ex''⟩, changed, removed, trips.map (fun t => (t.1, t.2.1)))

/-! ## Concrete fixtures used by the witness theorems -/

/-- The resolved in-memory DuckDB input. -/
def memInput : InputConfig := ⟨strL "duckdb", strL ":memory:"⟩

/-- A validated cell whose input is the in-memory DuckDB database. -/
def vcellMem (name text : String) : ValidatedCell :=
  ⟨strL name, 0, 1, strL text, [(inputK, Val.vstr (strL ":memory:"))],
    some ⟨some memInput, none⟩⟩

/-- A parsed cell whose config resolves to the in-memory DuckDB
database. -/
def pcellMem (name text : String) (start : Nat) : ParsedCell :=
  ⟨strL name, start, start + 1, strL text, [(inputK, Val.vstr (strL ":memory:"))]⟩

/-- A freshly built base executor with two in-memory cells. -/
def baseEx : BaseExec :=
  mkBase [] [vcellMem "q1" "SELECT 1;", vcellMem "q2" "SELECT 2;"] false

/-- A fully decorated chain over `baseEx`. -/
def chainEx : Exec := .logging (.output (.base baseEx))

/-- A two-cell document whose cells both carry an unresolvable
`input`. -/
def c1Doc : FileModel :=
  [⟨strL "query_1", 4, 6, strL "SELECT 1;", [(inputK, Val.vstr (strL "./unknown1.xyz"))]⟩,
   ⟨strL "query_2", 10, 12, strL "SELECT 2;", [(inputK, Val.vstr (strL "./unknown2.abc"))]⟩]

/-- A strict-mode executor holding one open connection. -/
def c9Base : BaseExec :=
  { file := [], vcells := [vcellMem "q1" "SELECT 1;"],
    cells := cellsByName [vcellMem "q1" "SELECT 1;"],
    conns := [(cacheKey (strL "duckdb") (strL ":memory:"),
      (strL "duckdb", strL ":memory:"))],
    skip_validation := false }

/-- A snapshot whose only cell has an unresolvable input. -/
def c9BadDoc : FileModel :=
  [⟨strL "q1", 0, 1, strL "SELECT 1;", [(inputK, Val.vstr (strL "./no.xyz"))]⟩]

/-- Header text for the merge fixture. -/
def hdrEx : PyStr := strL "HEADER"

/-- Cell text for the merge fixture. -/
def cellTxtEx : PyStr := strL "CELL"

/-- A parser producing `{a:1, b:2}` for the header and `{b:3, c:4}` for
the cell text. -/
def parserEx : ParserF := fun s =>
  if s = hdrEx then [(strL "a", .vint 1), (strL "b", .vint 2)]
  else if s = cellTxtEx then [(strL "b", .vint 3), (strL "c", .vint 4)]
  else []

/-- A watcher remembering one cell `q1` with text `A`. -/
def watcherEx : Watcher := ⟨[(strL "q1", strL "A")], .base (mkBase [] [] false)⟩

/-- A new snapshot: `q1` now has text `B`, and `q2` with text `C` is
new. -/
def newDocEx : FileModel := [pcellMem "q1" "B" 0, pcellMem "q2" "C" 2]

/-- An input already in resolved shape. -/
def d6pass : PyDict :=
  [(inputK, Val.vdict [(backendNameK, Val.vstr (strL "duckdb")),
    (strL "connection_string", Val.vstr (strL "./x.ddb"))])]

/-- A bare-string input. -/
def d6str : PyDict := [(inputK, Val.vstr (strL "./x.ddb"))]

/-- A single-entry explicit mapping naming an unregistered backend. -/
def d6single : PyDict :=
  [(inputK, Val.vdict [(strL "postgres", Val.vstr (strL "postgres://h/db"))])]

/-- An ambiguous two-entry explicit mapping. -/
def d6multi : PyDict :=
  [(inputK, Val.vdict [(strL "duckdb", Val.vstr (strL "./a.ddb")),
    (strL "postgres", Val.vstr (strL "p"))])]

/-- An input of an unsupported type. -/
def d6int : PyDict := [(inputK, Val.vint 123)]

/-- A document with two markers carrying the same cell name. -/
def dupContent : PyStr := strL "-- name: q\nSELECT 1;\n-- name: q\nSELECT 2;"

/-! ## Helper lemmas: Python dict semantics -/

theorem keysOf_cons {α β : Type} (p : α × β) (l : List (α × β)) :
    keysOf (p :: l) = p.1 :: keysOf l := rfl

theorem pyGet_pySet_self {α β : Type} [DecidableEq α] (d : List (α × β)) (k : α) (v : β) :
    pyGet? (pySet d k v) k = some v := by
  induction d with
  | nil => simp [pySet, pyGet?]
  | cons p t ih =>
    obtain ⟨k', v'⟩ := p
    by_cases h : k' = k
    · subst h; simp [pySet, pyGet?]
    · simp [pySet, pyGet?, h, ih]

theorem pyGet_pySet_ne {α β : Type} [DecidableEq α] (d : List (α × β)) (k a : α) (v : β)
    (h : a ≠ k) : pyGet? (pySet d k v) a = pyGet? d a := by
  have hka : ¬ (k = a) := fun hh => h hh.symm
  induction d with
  | nil => simp [pySet, pyGet?, hka]
  | cons p t ih =>
    obtain ⟨k', v'⟩ := p
    by_cases hk : k' = k
    · subst hk
      simp [pySet, pyGet?, hka]
    · simp only [pySet, if_neg hk, pyGet?]
      by_cases ha : k' = a
      · simp [ha]
      · simp [ha, ih]

theorem pyGet_eq_none_iff {α β : Type} [DecidableEq α] (d : List (α × β)) (k : α) :
    pyGet? d k = none ↔ k ∉ keysOf d := by
  induction d with
  | nil => simp [pyGet?, keysOf]
  | cons p t ih =>
    obtain ⟨k', v'⟩ := p
    by_cases h : k' = k
    · subst h; simp [pyGet?, keysOf]
    · have hne : ¬ (k = k') := fun hh => h hh.symm
      simp [pyGet?, keysOf_cons, h, ih, hne]

theorem pyGet_eq_some_iff_mem {α β : Type} [DecidableEq α] (d : List (α × β)) (k : α)
    (v : β) (h : NoDupKeys d) : pyGet? d k = some v ↔ (k, v) ∈ d := by
  induction d with
  | nil => simp [pyGet?]
  | cons p t ih =>
    obtain ⟨k', v'⟩ := p
    have h' : NoDupKeys t := (List.nodup_cons.mp h).2
    have hnotin : k' ∉ keysOf t := (List.nodup_cons.mp h).1
    by_cases hk : k' = k
    · subst hk
      have ht : pyGet? t k' = none := (pyGet_eq_none_iff t k').mpr hnotin
      simp only [pyGet?, if_pos rfl, List.mem_cons]
      constructor
      · intro hh
        left
        obtain rfl : v' = v := by injection hh
        rfl
      · rintro (h1 | h1)
        · obtain ⟨-, rfl⟩ := Prod.mk.injEq .. ▸ h1
          rfl
        · exfalso
          exact hnotin (List.mem_map.mpr ⟨(k', v), h1, rfl⟩)
    · simp only [pyGet?, if_neg hk, List.mem_cons]
      rw [ih h']
      constructor
      · intro hh; exact Or.inr hh
      · rintro (h1 | h1)
        · exfalso
          apply hk
          exact (congrArg Prod.fst h1).symm
        · exact h1

theorem keysOf_pySet {α β : Type} [DecidableEq α] (d : List (α × β)) (k : α) (v : β) :
    keysOf (pySet d k v) = if k ∈ keysOf d then keysOf d else keysOf d ++ [k] := by
  induction d with
  | nil => simp [pySet, keysOf]
  | cons p t ih =>
    obtain ⟨k', v'⟩ := p
    by_cases h : k' = k
    · subst h; simp [pySet, keysOf_cons]
    · have hne : ¬ (k = k') := fun hh => h hh.symm
      have hstep : pySet ((k', v') :: t) k v = (k', v') :: pySet t k v := by
        simp [pySet, h]
      rw [hstep, keysOf_cons, keysOf_cons, ih]
      by_cases hm : k ∈ keysOf t
      · simp [hm, hne, List.mem_cons]
      · simp [hm, hne, List.mem_cons]

theorem noDupKeys_pySet {α β : Type} [DecidableEq α] (d : List (α × β)) (k : α) (v : β)
    (h : NoDupKeys d) : NoDupKeys (pySet d k v) := by
  unfold NoDupKeys at h ⊢
  rw [keysOf_pySet]
  by_cases hm : k ∈ keysOf d
  · simpa [hm] using h
  · simp [hm, List.nodup_append, h]

theorem noDupKeys_pyUpdate {α β : Type} [DecidableEq α] (d e : List (α × β))
    (h : NoDupKeys d) : NoDupKeys (pyUpdate d e) := by
  induction e generalizing d with
  | nil => simpa [pyUpdate] using h
  | cons p t ih =>
    have hstep : pyUpdate d (p :: t) = pyUpdate (pySet d p.1 p.2) t := rfl
    rw [hstep]
    exact ih _ (noDupKeys_pySet d p.1 p.2 h)

theorem pyGet_pyUpdate {α β : Type} [DecidableEq α] (d e : List (α × β)) (k : α)
    (he : NoDupKeys e) :
    pyGet? (pyUpdate d e) k = oAlt (pyGet? e k) (pyGet? d k) := by
  induction e generalizing d with
  | nil => simp [pyUpdate, pyGet?, oAlt]
  | cons p t ih =>
    obtain ⟨k', v'⟩ := p
    have h' : NoDupKeys t := (List.nodup_cons.mp he).2
    have hnotin : k' ∉ keysOf t := (List.nodup_cons.mp he).1
    have hstep : pyUpdate d ((k', v') :: t) = pyUpdate (pySet d k' v') t := rfl
    rw [hstep, ih _ h']
    by_cases hk : k = k'
    · subst hk
      have ht : pyGet? t k = none := (pyGet_eq_none_iff t k).mpr hnotin
      simp [ht, pyGet_pySet_self, pyGet?, oAlt]
    · have hne : ¬ (k' = k) := fun hh => hk hh.symm
      simp [pyGet_pySet_ne d k' k v' hk, pyGet?, hne]

theorem oAlt_none_right {β : Type} (a : Option β) : oAlt a none = a := by
  cases a <;> rfl

theorem lastSome_append {β : Type} (l₁ l₂ : List (Option β)) :
    lastSome (l₁ ++ l₂) = oAlt (lastSome l₂) (lastSome l₁) := by
  induction l₁ with
  | nil => simp [lastSome, oAlt_none_right]
  | cons o t ih =>
    have h1 : lastSome ((o :: t) ++ l₂) = oAlt (lastSome (t ++ l₂)) o := rfl
    have h2 : lastSome (o :: t) = oAlt (lastSome t) o := rfl
    rw [h1, h2, ih]
    cases lastSome l₂ <;> cases lastSome t <;> cases o <;> rfl

theorem pyGet_foldUpdate {α β : Type} [DecidableEq α] (outs : List (List (α × β)))
    (d : List (α × β)) (k : α) (h : ∀ o ∈ outs, NoDupKeys o) :
    pyGet? (outs.foldl pyUpdate d) k =
      oAlt (lastSome (outs.map (fun o => pyGet? o k))) (pyGet? d k) := by
  induction outs generalizing d with
  | nil => simp [lastSome, oAlt]
  | cons o t ih =>
    have ho : NoDupKeys o := h o (List.mem_cons_self _ _)
    have ht : ∀ x ∈ t, NoDupKeys x := fun x hx => h x (List.mem_cons_of_mem _ hx)
    have hstep : (o :: t).foldl pyUpdate d = t.foldl pyUpdate (pyUpdate d o) := rfl
    have hls : lastSome ((o :: t).map (fun o => pyGet? o k)) =
        oAlt (lastSome (t.map (fun o => pyGet? o k))) (pyGet? o k) := rfl
    rw [hstep, ih _ ht, pyGet_pyUpdate d o k ho, hls]
    cases lastSome (t.map fun o => pyGet? o k) <;> cases pyGet? o k <;> rfl

/-! ## Merge-precedence lemmas and claim C3 -/

theorem noDupKeys_foldUpdate {α β : Type} [DecidableEq α] (outs : List (List (α × β)))
    (d : List (α × β)) (h : NoDupKeys d) : NoDupKeys (outs.foldl pyUpdate d) := by
  induction outs generalizing d with
  | nil => exact h
  | cons o t ih => exact ih _ (noDupKeys_pyUpdate d o h)

theorem parserFold_eq (parsers : List ParserF) (txt : PyStr) :
    parsers.foldl (fun acc p => pyUpdate acc (p txt)) ([] : PyDict) =
      (parsers.map (fun p => p txt)).foldl pyUpdate [] :=
  (List.foldl_map ..).symm

theorem pyGet_parserFold (parsers : List ParserF) (txt : PyStr) (k : PyStr)
    (h : ∀ p ∈ parsers, NoDupKeys (p txt)) :
    pyGet? (parsers.foldl (fun acc p => pyUpdate acc (p txt)) ([] : PyDict)) k =
      lastSome (parsers.map (fun p => pyGet? (p txt) k)) := by
  rw [parserFold_eq]
  rw [pyGet_foldUpdate _ _ _ (by
    intro o ho
    obtain ⟨p, hp, rfl⟩ := List.mem_map.mp ho
    exact h p hp)]
  rw [List.map_map]
  have hnil : pyGet? ([] : PyDict) k = none := rfl
  rw [hnil, oAlt_none_right]
  rfl

theorem noDupKeys_cellLocalConfig (parsers : List ParserF) (txt : PyStr) :
    NoDupKeys (cellLocalConfig parsers txt) := by
  unfold cellLocalConfig
  rw [parserFold_eq]
  exact noDupKeys_foldUpdate _ _ (by simp [NoDupKeys, keysOf])

/-- C3: for every header text, cell text and parser sequence, the merged
cell config looks up each key as "last writer wins" over the sequence:
all header parses in registration order, then all cell-local parses in
registration order — so cell values always override header values, and
a later parser overrides an earlier one; the merge used by
`QsqlFile.parsed_cells` is exactly this function applied to the
document's header and each cell block's text. -/
theorem claim3_merge_precedence (parsers : List ParserF) (header cellText : PyStr)
    (hp : ∀ p ∈ parsers, ∀ s : PyStr, NoDupKeys (p s)) :
    (∀ k : PyStr, pyGet? (mergedCellConfig parsers header cellText) k =
      lastSome ((parsers.map fun p => pyGet? (p header) k) ++
        (parsers.map fun p => pyGet? (p cellText) k))) ∧
    (∀ (k : PyStr) (v : Val), pyGet? (cellLocalConfig parsers cellText) k = some v →
      pyGet? (mergedCellConfig parsers header cellText) k = some v) ∧
    (∀ content : PyStr, qsqlParsedCells parsers content =
      (qsqlCellBlocks content).map fun cb =>
        ⟨cb.cell_name, cb.cell_start, cb.cell_end, cb.text,
          mergedCellConfig parsers (qsqlHeader content) cb.text⟩) := by
  have hmain : ∀ k : PyStr, pyGet? (mergedCellConfig parsers header cellText) k =
      lastSome ((parsers.map fun p => pyGet? (p header) k) ++
        (parsers.map fun p => pyGet? (p cellText) k)) := by
    intro k
    have hcell : pyGet? (cellLocalConfig parsers cellText) k =
        lastSome (parsers.map (fun p => pyGet? (p cellText) k)) :=
      pyGet_parserFold parsers cellText k (fun p hp' => hp p hp' cellText)
    have hhdr : pyGet? (qsqlParsedHeader parsers header) k =
        lastSome (parsers.map (fun p => pyGet? (p header) k)) :=
      pyGet_parserFold parsers header k (fun p hp' => hp p hp' header)
    have hupd : pyGet? (mergedCellConfig parsers header cellText) k =
        oAlt (pyGet? (cellLocalConfig parsers cellText) k)
          (pyGet? (qsqlParsedHeader parsers header) k) :=
      pyGet_pyUpdate _ _ k (noDupKeys_cellLocalConfig parsers cellText)
    rw [hupd, hcell, hhdr, lastSome_append]
  refine ⟨hmain, ?_, ?_⟩
  · intro k v hv
    have hcell : pyGet? (cellLocalConfig parsers cellText) k =
        lastSome (parsers.map (fun p => pyGet? (p cellText) k)) :=
      pyGet_parserFold parsers cellText k (fun p hp' => hp p hp' cellText)
    rw [hmain k, lastSome_append, ← hcell, hv]
    rfl
  · intro content
    rfl

/-- Witness for C3, at the spec's own example: header `{a:1, b:2}` and
cell `{b:3, c:4}` merge to `{a:1, b:3, c:4}`. -/
theorem claim3_merge_precedence_witness :
    pyGet? (mergedCellConfig [parserEx] hdrEx cellTxtEx) (strL "b") =
      lastSome (([parserEx].map fun p => pyGet? (p hdrEx) (strL "b")) ++
        ([parserEx].map fun p => pyGet? (p cellTxtEx) (strL "b"))) ∧
    mergedCellConfig [parserEx] hdrEx cellTxtEx =
      [(strL "a", .vint 1), (strL "b", .vint 3), (strL "c", .vint 4)] := by
  constructor
  · exact (claim3_merge_precedence [parserEx] hdrEx cellTxtEx
      (by
        intro p hp s
        obtain rfl : p = parserEx := by simpa using hp
        unfold parserEx
        by_cases h1 : s = hdrEx
        · simp [h1, NoDupKeys, keysOf]
          decide
        · by_cases h2 : s = cellTxtEx
          · simp [h1, h2, NoDupKeys, keysOf]
            decide
          · simp [h1, h2, NoDupKeys, keysOf])).1 (strL "b")
  · rfl

/-! ## Claims C5 and C6 -/

/-- C5: `execute_cell` raises a not-found error when the name is absent
from the cell index, a missing-input error when the cell's validated
config has no `input`, and otherwise is exactly get-or-create of the
cached backend connection for the config's backend name and connection
string followed by the backend's `execute` on the cell's raw text. -/
theorem claim5_execute_cell (st : BaseExec) (n : PyStr) :
    (pyGet? st.cells n = none →
      executeCellB st n = (.error (.notFound n), st, [])) ∧
    (∀ (cell : ValidatedCell) (cfg : CellConfig),
      pyGet? st.cells n = some cell → cell.validated_config = some cfg →
      cfg.input = none →
      executeCellB st n = (.error (.noInput n), st, [])) ∧
    (∀ (cell : ValidatedCell) (cfg : CellConfig) (inp : InputConfig),
      pyGet? st.cells n = some cell → cell.validated_config = some cfg →
      cfg.input = some inp →
      executeCellB st n =
        (match getOrCreateBackend st inp.backend_name inp.connection_string with
          | .ok (inst, st', ev) => (.ok ⟨inst.1, inst.2, cell.text⟩, st', ev)
          | .error e => (.error e, st, []))) := by
  refine ⟨?_, ?_, ?_⟩
  · intro h
    simp [executeCellB, h]
  · intro cell cfg h1 h2 h3
    simp [executeCellB, h1, h2, h3]
  · intro cell cfg inp h1 h2 h3
    simp [executeCellB, h1, h2, h3]

/-- Witness for C5 at a concrete executor: an unknown name fails with
not-found, and a cell with an in-memory input delegates through the
connection cache to the backend. -/
theorem claim5_execute_cell_witness :
    executeCellB baseEx (strL "missing") =
      (.error (.notFound (strL "missing")), baseEx, []) ∧
    executeCellB baseEx (strL "q1") =
      (match getOrCreateBackend baseEx memInput.backend_name
          memInput.connection_string with
        | .ok (inst, st', ev) =>
          (.ok ⟨inst.1, inst.2, (vcellMem "q1" "SELECT 1;").text⟩, st', ev)
        | .error e => (.error e, baseEx, [])) := by
  constructor
  · exact (claim5_execute_cell baseEx (strL "missing")).1 (by rfl)
  · exact (claim5_execute_cell baseEx (strL "q1")).2.2
      (vcellMem "q1" "SELECT 1;") ⟨some memInput, none⟩ memInput rfl rfl rfl

/-- C6: precedence of `CellConfig.parse_input` on the raw `input`
value: a mapping already carrying `backend_name` (resolved shape)
passes through unchanged; a bare string is resolved and paired with
itself as connection string; a single-entry mapping
`{backend: connection}` is used directly (no registry consulted — the
definition never mentions `registeredBackends`); a multi-entry mapping
is rejected; a value of any other type is rejected. -/
theorem claim6_input_precedence (data : PyDict) :
    (∀ d : List (PyStr × Val), pyGet? data inputK = some (.vdict d) →
      (pyGet? d backendNameK).isSome = true → parse_input data = .ok data) ∧
    (∀ s bn : PyStr, pyGet? data inputK = some (.vstr s) →
      resolveConn s = .ok bn →
      parse_input data = .ok (pySet data inputK (.vinput bn s))) ∧
    (∀ bn cs : PyStr, pyGet? data inputK = some (.vdict [(bn, .vstr cs)]) →
      bn ≠ backendNameK →
      parse_input data = .ok (pySet data inputK (.vinput bn cs))) ∧
    (∀ d : List (PyStr × Val), pyGet? data inputK = some (.vdict d) →
      pyGet? d backendNameK = none → 2 ≤ d.length →
      ∃ msg, parse_input data = .error msg) ∧
    (∀ z : Int, pyGet? data inputK = some (.vint z) →
      ∃ msg, parse_input data = .error msg) := by
  refine ⟨?_, ?_, ?_, ?_, ?_⟩
  · intro d h1 h2
    simp [parse_input, h1, h2]
  · intro s bn h1 h2
    simp [parse_input, h1, h2]
  · intro bn cs h1 h2
    have hget : pyGet? [(bn, Val.vstr cs)] backendNameK = none := by
      simp [pyGet?, h2]
    simp [parse_input, h1, hget, pyToStr]
  · intro d h1 h2 h3
    match d, h3 with
    | x :: y :: t, _ =>
      refine ⟨multiBackendMsg (x :: y :: t), ?_⟩
      simp [parse_input, h1, h2]
  · intro z h1
    exact ⟨invalidInputMsg (.vint z), by simp [parse_input, h1, invalidInputMsg]⟩

/-- Witness for C6: one concrete input per precedence rule; the
single-entry rule's backend (`postgres`) is not a registered backend. -/
theorem claim6_input_precedence_witness :
    parse_input d6pass = .ok d6pass ∧
    parse_input d6str =
      .ok (pySet d6str inputK (.vinput (strL "duckdb") (strL "./x.ddb"))) ∧
    parse_input d6single =
      .ok (pySet d6single inputK (.vinput (strL "postgres") (strL "postgres://h/db"))) ∧
    (∃ msg, parse_input d6multi = .error msg) ∧
    (∃ msg, parse_input d6int = .error msg) := by
  refine ⟨?_, ?_, ?_, ?_, ?_⟩
  · exact (claim6_input_precedence d6pass).1 _ rfl rfl
  · exact (claim6_input_precedence d6str).2.1 _ _ rfl rfl
  · exact (claim6_input_precedence d6single).2.2.1 _ _ rfl (by decide)
  · exact (claim6_input_precedence d6multi).2.2.2.1 _ rfl rfl (by decide)
  · exact (claim6_input_precedence d6int).2.2.2.2 123 rfl

/-! ## Claim C10: duplicate cell names -/

theorem cellBlocksGo_length (lines : List (Nat × PyStr)) :
    ∀ (rev : List (Nat × PyStr)) (last : Nat),
      (cellBlocksGo lines rev last).length =
        (rev.filter (fun p => (findMarker p.2).isSome)).length := by
  intro rev
  induction rev with
  | nil => intro last; rfl
  | cons p rest ih =>
    intro last
    obtain ⟨ln, txt⟩ := p
    cases h : findMarker txt with
    | none => simp [cellBlocksGo, h, List.filter_cons, ih]
    | some tok => simp [cellBlocksGo, h, List.filter_cons, ih]

theorem enumFrom_filter_snd_length {γ : Type} (l : List γ) (p : γ → Bool) :
    ∀ n : Nat, ((l.enumFrom n).filter (fun q => p q.2)).length = (l.filter p).length := by
  induction l with
  | nil => intro n; rfl
  | cons a t ih =>
    intro n
    by_cases h : p a <;> simp [List.enumFrom, List.filter_cons, h, ih]

theorem cellsByName_aux (vcs : List ValidatedCell) :
    ∀ (d0 : List (PyStr × ValidatedCell)) (n : PyStr),
      pyGet? (vcs.foldl (fun d c => pySet d c.cell_name c) d0) n =
        oAlt ((vcs.filter (fun c => c.cell_name = n)).getLast?) (pyGet? d0 n) := by
  induction vcs with
  | nil => intro d0 n; rfl
  | cons c t ih =>
    intro d0 n
    have hstep : (c :: t).foldl (fun d c => pySet d c.cell_name c) d0 =
        t.foldl (fun d c => pySet d c.cell_name c) (pySet d0 c.cell_name c) := rfl
    rw [hstep, ih]
    by_cases hc : c.cell_name = n
    · subst hc
      have hfc : (c :: t).filter (fun c' => c'.cell_name = c.cell_name) =
          c :: t.filter (fun c' => c'.cell_name = c.cell_name) := by
        simp [List.filter_cons]
      rw [hfc, pyGet_pySet_self]
      cases hfl : t.filter (fun c' => c'.cell_name = c.cell_name) with
      | nil => simp [oAlt]
      | cons y ys =>
        rw [List.getLast?_cons_cons]
        cases hx : (y :: ys).getLast? with
        | none => exact absurd (List.getLast?_eq_none_iff.mp hx) (by simp)
        | some x => rfl
    · have hfilter : (c :: t).filter (fun c' => c'.cell_name = n) =
          t.filter (fun c' => c'.cell_name = n) := by
        simp [List.filter_cons, hc]
      rw [hfilter, pyGet_pySet_ne d0 c.cell_name n c (fun hh => hc hh.symm)]

/-- C10: cell-block extraction emits one block per marker line with no
uniqueness check on names, while the executor's by-name index keeps, for
each name, only the cell occurring last in document order (Python dict
comprehension: later assignment wins) — so `execute_cell` and
`get_cell_config` for a duplicated name operate on the last such cell.
Validation preserves the number and order of cells, and the concrete
two-marker document `dupContent` (both cells named `q`) yields two
blocks but an index holding the second block's text. -/
theorem claim10_duplicate_names :
    (∀ content : PyStr, (qsqlCellBlocks content).length =
      ((pySplitlines content).filter (fun l => (findMarker l).isSome)).length) ∧
    (∀ (vcs : List ValidatedCell) (n : PyStr),
      pyGet? (cellsByName vcs) n =
        (vcs.filter (fun c => c.cell_name = n)).getLast?) ∧
    (∀ f : FileModel,
      (validateCellsCore f).1.map (·.cell_name) = f.map (·.cell_name)) ∧
    (∀ (f : FileModel) (vcs : List ValidatedCell) (skip : Bool) (n : PyStr),
      getCellConfigB (mkBase f vcs skip) n =
        ((vcs.filter (fun c => c.cell_name = n)).getLast?).bind
          (·.validated_config)) ∧
    (qsqlCellBlocks dupContent).length = 2 ∧
    (∃ st : BaseExec, buildBase (qsqlParsedCells [] dupContent) false = .ok st ∧
      (pyGet? st.cells (strL "q")).map (·.text) =
        some (strL "-- name: q\nSELECT 2;")) := by
  have hindex : ∀ (vcs : List ValidatedCell) (n : PyStr),
      pyGet? (cellsByName vcs) n =
        (vcs.filter (fun c => c.cell_name = n)).getLast? := by
    intro vcs n
    unfold cellsByName
    rw [cellsByName_aux]
    exact oAlt_none_right _
  refine ⟨?_, hindex, ?_, ?_, by rfl, ⟨_, rfl, by rfl⟩⟩
  · intro content
    unfold qsqlCellBlocks
    rw [List.length_reverse, cellBlocksGo_length, List.filter_reverse,
      List.length_reverse]
    have hlines : linesOf content = (pySplitlines content).enumFrom 0 := rfl
    rw [hlines]
    exact enumFrom_filter_snd_length (pySplitlines content)
      (fun l => (findMarker l).isSome) 0
  · intro f
    induction f with
    | nil => rfl
    | cons pc rest ih =>
      have hname : (validateCell pc).1.cell_name = pc.cell_name := by
        unfold validateCell
        cases cellConfigModelValidate pc.config <;> rfl
      simp [validateCellsCore, hname, ih]
  · intro f vcs skip n
    unfold getCellConfigB mkBase
    rw [show (⟨f, vcs, cellsByName vcs, [], skip⟩ : BaseExec).cells =
      cellsByName vcs from rfl, hindex]
    cases (vcs.filter (fun c => c.cell_name = n)).getLast? <;> rfl

/-! ## Claim C1: validation pass and the resolution-failure field path -/

/-- C1 (divergence demonstration): on the two-cell document `c1Doc`
whose cells both carry an unresolvable `input`, the validation pass
does process every cell, collects exactly one error per cell with the
correct cell names and 1-based rendered lines, attaches a null
validated config to each cell, and in permissive mode returns the full
two-cell list — but the two errors carry the empty field path `""`,
not `"input"`: the `ValueError` raised by `ConnectionResolver.resolve`
inside the `mode="before"` validator is wrapped by pydantic into a
`ValidationError` with empty `loc`, so the source's dedicated
`except ValueError` branch (which would set `field_path="input"`) is
unreachable. -/
theorem claim1_resolution_error_field_path :
    (∃ e1 e2 : CellValidationError,
      validate_cells c1Doc false = .error [e1, e2] ∧
      e1.cell_name = strL "query_1" ∧ e2.cell_name = strL "query_2" ∧
      renderedLineNumber e1 = 5 ∧ renderedLineNumber e2 = 11 ∧
      e1.field_path = [] ∧ e2.field_path = [] ∧
      e1.field_path ≠ inputK ∧ e2.field_path ≠ inputK) ∧
    ((validateCellsCore c1Doc).1.map (·.validated_config) = [none, none]) ∧
    (∃ vcs : List ValidatedCell,
      validate_cells c1Doc true = .ok vcs ∧ vcs.length = 2) := by
  refine ⟨⟨_, _, rfl, rfl, rfl, rfl, rfl, rfl, rfl, by decide, by decide⟩,
    rfl, ⟨_, rfl, rfl⟩⟩

/-! ## Claim C9: a failed strict refresh leaves the executor usable -/

theorem executeCellB_congr (st st' : BaseExec) (hc : st'.cells = st.cells)
    (hk : st'.conns = st.conns) (n : PyStr) :
    (executeCellB st' n).1 = (executeCellB st n).1 ∧
    (executeCellB st' n).2.2 = (executeCellB st n).2.2 ∧
    ((executeCellB st' n).2.1).conns = ((executeCellB st n).2.1).conns := by
  cases h1 : pyGet? st.cells n with
  | none => simp [executeCellB, hc, hk, h1]
  | some cell =>
    cases h2 : cell.validated_config with
    | none => simp [executeCellB, hc, hk, h1, h2]
    | some cfg =>
      cases h3 : cfg.input with
      | none => simp [executeCellB, hc, hk, h1, h2, h3]
      | some inp =>
        cases h4 : pyGet? st.conns (cacheKey inp.backend_name inp.connection_string) with
        | some inst =>
          simp [executeCellB, getOrCreateBackend, hc, hk, h1, h2, h3, h4]
        | none =>
          by_cases hreg : inp.backend_name ∈ registeredBackends <;>
            simp [executeCellB, getOrCreateBackend, hc, hk, h1, h2, h3, h4, hreg]

/-- C9: calling `refresh` in strict mode with a snapshot whose
validation collects at least one error raises the aggregated error and
leaves the cell index and the connection cache exactly as they were
(only the stored file reference was already swapped), so every
previously executable cell still executes identically and every cached
connection is still present. -/
theorem claim9_failed_refresh_preserves_state (st : BaseExec) (f : FileModel)
    (hstrict : st.skip_validation = false)
    (herr : (validateCellsCore f).2 ≠ []) :
    refreshB st f = (.error (validateCellsCore f).2, { st with file := f }) ∧
    ({ st with file := f } : BaseExec).cells = st.cells ∧
    ({ st with file := f } : BaseExec).conns = st.conns ∧
    (∀ n : PyStr,
      (executeCellB { st with file := f } n).1 = (executeCellB st n).1 ∧
      (executeCellB { st with file := f } n).2.2 = (executeCellB st n).2.2 ∧
      ((executeCellB { st with file := f } n).2.1).conns =
        ((executeCellB st n).2.1).conns) := by
  have hval : validate_cells f st.skip_validation =
      .error (validateCellsCore f).2 := by
    rw [hstrict]
    unfold validate_cells
    rcases hcore : validateCellsCore f with ⟨vcs, errs⟩
    rw [hcore] at herr
    simp only at herr
    have hne : errs.isEmpty = false := by
      cases errs with
      | nil => exact absurd rfl herr
      | cons a l => rfl
    simp [hne]
  refine ⟨?_, rfl, rfl, fun n => executeCellB_congr st { st with file := f } rfl rfl n⟩
  unfold refreshB
  rw [hval]

/-- Witness for C9: a strict executor holding one open connection,
refreshed with a snapshot whose single cell has an unresolvable input:
the call errors and the connection cache and cell index survive. -/
theorem claim9_failed_refresh_preserves_state_witness :
    refreshB c9Base c9BadDoc =
      (.error (validateCellsCore c9BadDoc).2, { c9Base with file := c9BadDoc }) ∧
    ({ c9Base with file := c9BadDoc } : BaseExec).cells = c9Base.cells ∧
    ({ c9Base with file := c9BadDoc } : BaseExec).conns = c9Base.conns := by
  have h := claim9_failed_refresh_preserves_state c9Base c9BadDoc rfl
    (by
      intro hnil
      have hlen : (validateCellsCore c9BadDoc).2.length = 1 := rfl
      rw [hnil] at hlen
      exact absurd hlen (by decide))
  exact ⟨h.1, h.2.1, h.2.2.1⟩

/-! ## Decorator-chain decomposition lemmas -/

theorem connectCount_append (a b : List Ev) :
    connectCount (a ++ b) = connectCount a + connectCount b := by
  simp [connectCount, List.filter_append]

theorem baseOf_setBase (e : Exec) (b : BaseExec) : baseOf (setBase e b) = b := by
  induction e with
  | base _ => rfl
  | logging i ih => simpa [setBase, baseOf] using ih
  | output i ih => simpa [setBase, baseOf] using ih

/-- Executing a cell through any chain is executing it on the base:
decorators pass the result through unchanged, only touch base state via
the base call, and contribute no `connect` events of their own. -/
theorem executeCellE_decomp (e : Exec) (n : PyStr) :
    ∃ pre post : List Ev,
      executeCellE e n = ((executeCellB (baseOf e) n).1,
        setBase e (executeCellB (baseOf e) n).2.1,
        pre ++ (executeCellB (baseOf e) n).2.2 ++ post) ∧
      connectCount pre = 0 ∧ connectCount post = 0 := by
  induction e with
  | base b =>
    refine ⟨[], [], ?_, rfl, rfl⟩
    rcases hb : executeCellB b n with ⟨r, b', ev⟩
    simp [executeCellE, hb, baseOf, setBase]
  | logging i ih =>
    obtain ⟨pre, post, hdec, hp, hq⟩ := ih
    rcases hb : executeCellB (baseOf i) n with ⟨r, b', ev⟩
    rw [hb] at hdec
    simp only at hdec
    have hbl : executeCellB (baseOf (Exec.logging i)) n = (r, b', ev) := hb
    cases r with
    | ok v =>
      refine ⟨Ev.logExecuting n :: pre, post ++ [Ev.logCompleted n], ?_, ?_, ?_⟩
      · simp [executeCellE, hdec, hbl, setBase]
      · simpa [connectCount, List.filter_cons] using hp
      · rw [connectCount_append, hq]; rfl
    | error err =>
      refine ⟨Ev.logExecuting n :: pre, post ++ [Ev.logFailed n], ?_, ?_, ?_⟩
      · simp [executeCellE, hdec, hbl, setBase]
      · simpa [connectCount, List.filter_cons] using hp
      · rw [connectCount_append, hq]; rfl
  | output i ih =>
    obtain ⟨pre, post, hdec, hp, hq⟩ := ih
    rcases hb : executeCellB (baseOf i) n with ⟨r, b', ev⟩
    rw [hb] at hdec
    simp only at hdec
    have hbl : executeCellB (baseOf (Exec.output i)) n = (r, b', ev) := hb
    cases r with
    | ok v =>
      cases hcfg : getCellConfigE (setBase i b') n with
      | none =>
        refine ⟨pre, post, ?_, hp, hq⟩
        simp [executeCellE, hdec, hbl, setBase, hcfg]
      | some cfg =>
        cases ho : cfg.output with
        | none =>
          refine ⟨pre, post, ?_, hp, hq⟩
          simp [executeCellE, hdec, hbl, setBase, hcfg, ho]
        | some dir =>
          refine ⟨pre, post ++ [Ev.wrote dir n], ?_, hp, ?_⟩
          · simp [executeCellE, hdec, hbl, setBase, hcfg, ho]
          · rw [connectCount_append, hq]; rfl
    | error err =>
      refine ⟨pre, post, ?_, hp, hq⟩
      simp [executeCellE, hdec, hbl, setBase]

/-- Refreshing through any chain is refreshing the base. -/
theorem refreshE_decomp (e : Exec) (f : FileModel) :
    refreshE e f = ((refreshB (baseOf e) f).1, setBase e (refreshB (baseOf e) f).2) := by
  induction e with
  | base b =>
    rcases h : refreshB b f with ⟨r, b'⟩
    simp [refreshE, h, baseOf, setBase]
  | logging i ih => simp [refreshE, ih, baseOf, setBase]
  | output i ih => simp [refreshE, ih, baseOf, setBase]

/-- `refreshB` never touches the connection cache. -/
theorem refreshB_conns (st : BaseExec) (f : FileModel) :
    ((refreshB st f).2).conns = st.conns := by
  unfold refreshB
  cases h : validate_cells f st.skip_validation <;> simp [h]

/-- On a successful validation, `refreshB` replaces the cell index with
the index of the new validated cells. -/
theorem refreshB_cells_ok (st : BaseExec) (f : FileModel) (vcs : List ValidatedCell)
    (h : validate_cells f st.skip_validation = .ok vcs) :
    ((refreshB st f).2).cells = cellsByName vcs := by
  unfold refreshB
  simp [h]

/-! ## Claim C2: connection reuse and refresh -/

/-- C2: executing two cells whose validated configs share backend name
and connection string, on an executor with a fresh cache, performs
exactly one `connect` (on the first call; the second hits the cache
keyed `"{backend}:{connection}"`); `refresh` with any new snapshot
leaves the connection cache untouched and (on successful validation)
replaces only the cell index; and executing any cell with the same
unchanged input after a refresh performs no new `connect`. -/
theorem claim2_connection_reuse_and_refresh
    (e : Exec) (n1 n2 : PyStr) (cell1 cell2 : ValidatedCell)
    (cfg1 cfg2 : CellConfig) (i1 i2 : InputConfig)
    (r1 r2 : Except ExecErr RunResult) (e1 e2 : Exec) (ev1 ev2 : List Ev)
    (h1 : pyGet? (baseOf e).cells n1 = some cell1)
    (h1c : cell1.validated_config = some cfg1) (h1i : cfg1.input = some i1)
    (h2 : pyGet? (baseOf e).cells n2 = some cell2)
    (h2c : cell2.validated_config = some cfg2) (h2i : cfg2.input = some i2)
    (hbn : i2.backend_name = i1.backend_name)
    (hcs : i2.connection_string = i1.connection_string)
    (hreg : i1.backend_name ∈ registeredBackends)
    (hfresh : (baseOf e).conns = [])
    (hs1 : executeCellE e n1 = (r1, e1, ev1))
    (hs2 : executeCellE e1 n2 = (r2, e2, ev2)) :
    connectCount ev1 = 1 ∧ connectCount ev2 = 0 ∧
    (∀ f : FileModel, (baseOf (refreshE e2 f).2).conns = (baseOf e2).conns) ∧
    (∀ (f : FileModel) (vcs : List ValidatedCell),
      validate_cells f (baseOf e2).skip_validation = .ok vcs →
      (baseOf (refreshE e2 f).2).cells = cellsByName vcs) ∧
    (∀ (f : FileModel) (n3 : PyStr) (cell3 : ValidatedCell) (cfg3 : CellConfig)
        (i3 : InputConfig) (r3 : Except ExecErr RunResult) (e3 : Exec)
        (ev3 : List Ev),
      pyGet? (baseOf (refreshE e2 f).2).cells n3 = some cell3 →
      cell3.validated_config = some cfg3 → cfg3.input = some i3 →
      i3.backend_name = i1.backend_name →
      i3.connection_string = i1.connection_string →
      executeCellE (refreshE e2 f).2 n3 = (r3, e3, ev3) →
      connectCount ev3 = 0) := by
  have hkey : cacheKey i2.backend_name i2.connection_string =
      cacheKey i1.backend_name i1.connection_string := by rw [hbn, hcs]
  have hb1 : executeCellB (baseOf e) n1 =
      (.ok ⟨i1.backend_name, i1.connection_string, cell1.text⟩,
       { baseOf e with conns := [(cacheKey i1.backend_name i1.connection_string,
          (i1.backend_name, i1.connection_string))] },
       [.connect i1.backend_name i1.connection_string]) := by
    simp [executeCellB, getOrCreateBackend, h1, h1c, h1i, hfresh, hreg, pyGet?,
      pySet]
  obtain ⟨p1, q1, hd1, hp1, hq1⟩ := executeCellE_decomp e n1
  rw [hb1, hs1] at hd1
  injection hd1 with hr1 hd1'
  injection hd1' with he1 hev1
  have hcount1 : connectCount ev1 = 1 := by
    rw [hev1, connectCount_append, connectCount_append, hp1, hq1]
    rfl
  have hbase1 : baseOf e1 =
      { baseOf e with conns := [(cacheKey i1.backend_name i1.connection_string,
        (i1.backend_name, i1.connection_string))] } := by
    rw [he1, baseOf_setBase]
  have hb2 : executeCellB (baseOf e1) n2 =
      (.ok ⟨i1.backend_name, i1.connection_string, cell2.text⟩, baseOf e1, []) := by
    rw [hbase1]
    simp [executeCellB, getOrCreateBackend, h2, h2c, h2i, hkey, pyGet?]
  obtain ⟨p2, q2, hd2, hp2, hq2⟩ := executeCellE_decomp e1 n2
  rw [hb2, hs2] at hd2
  injection hd2 with hr2 hd2'
  injection hd2' with he2 hev2
  have hcount2 : connectCount ev2 = 0 := by
    rw [hev2, connectCount_append, connectCount_append, hp2, hq2]
    rfl
  have hbase2 : baseOf e2 = baseOf e1 := by rw [he2, baseOf_setBase]
  refine ⟨hcount1, hcount2, ?_, ?_, ?_⟩
  · intro f
    rw [refreshE_decomp, baseOf_setBase, refreshB_conns]
  · intro f vcs hv
    rw [refreshE_decomp, baseOf_setBase, refreshB_cells_ok _ _ _ hv]
  · intro f n3 cell3 cfg3 i3 r3 e3 ev3 hl3 hc3 hi3 hbn3 hcs3 hs3
    have hconns3 : (baseOf (refreshE e2 f).2).conns =
        [(cacheKey i1.backend_name i1.connection_string,
          (i1.backend_name, i1.connection_string))] := by
      rw [refreshE_decomp, baseOf_setBase, refreshB_conns, hbase2, hbase1]
    have hkey3 : cacheKey i3.backend_name i3.connection_string =
        cacheKey i1.backend_name i1.connection_string := by rw [hbn3, hcs3]
    have hb3 : executeCellB (baseOf (refreshE e2 f).2) n3 =
        (.ok ⟨i1.backend_name, i1.connection_string, cell3.text⟩,
         baseOf (refreshE e2 f).2, []) := by
      simp [executeCellB, getOrCreateBackend, hl3, hc3, hi3, hkey3, hconns3,
        pyGet?]
    obtain ⟨p3, q3, hd3, hp3, hq3⟩ := executeCellE_decomp (refreshE e2 f).2 n3
    rw [hb3, hs3] at hd3
    injection hd3 with hr3 hd3'
    injection hd3' with he3 hev3
    rw [hev3, connectCount_append, connectCount_append, hp3, hq3]
    rfl

/-- Witness for C2: a fresh base executor with two in-memory DuckDB
cells connects once on the first execution and zero times on the
second. -/
theorem claim2_connection_reuse_and_refresh_witness :
    connectCount (executeCellE (Exec.base baseEx) (strL "q1")).2.2 = 1 ∧
    connectCount (executeCellE
      (executeCellE (Exec.base baseEx) (strL "q1")).2.1 (strL "q2")).2.2 = 0 := by
  have h := claim2_connection_reuse_and_refresh (Exec.base baseEx)
      (strL "q1") (strL "q2")
      (vcellMem "q1" "SELECT 1;") (vcellMem "q2" "SELECT 2;")
      ⟨some memInput, none⟩ ⟨some memInput, none⟩ memInput memInput
      _ _ _ _ _ _ rfl rfl rfl rfl rfl rfl rfl rfl (by decide) rfl rfl rfl
  exact ⟨h.1, h.2.1⟩

/-! ## Claim C8: executeMany routes through the same link's executeCell -/

theorem pySet_append_fresh {α β : Type} [DecidableEq α] (d : List (α × β)) (k : α)
    (v : β) (h : pyGet? d k = none) : pySet d k v = d ++ [(k, v)] := by
  induction d with
  | nil => rfl
  | cons p t ih =>
    obtain ⟨k', v'⟩ := p
    by_cases hk : k' = k
    · subst hk
      simp [pyGet?] at h
    · simp only [pyGet?, if_neg hk] at h
      simp [pySet, hk, ih h]

theorem executeManyE_aux (names : List PyStr) :
    ∀ (e : Exec) (res0 : List (PyStr × Except ExecErr RunResult)) (ev0 : List Ev),
      names.Nodup → (∀ n ∈ names, pyGet? res0 n = none) →
      names.foldl
        (fun acc n =>
          let (r, ex', ev) := executeCellE acc.2.1 n
          (pySet acc.1 n r, ex', acc.2.2 ++ ev)) (res0, e, ev0) =
      (res0 ++ (callSeq e names).1.map (fun t => (t.1, t.2.1)),
       (callSeq e names).2,
       ev0 ++ ((callSeq e names).1.map (fun t => t.2.2)).flatten) := by
  induction names with
  | nil => intro e res0 ev0 _ _; simp [callSeq]
  | cons n rest ih =>
    intro e res0 ev0 hnd hfresh
    rcases hx : executeCellE e n with ⟨r, e', ev⟩
    have hnrest : n ∉ rest := (List.nodup_cons.mp hnd).1
    have hstep : (n :: rest).foldl
        (fun acc n =>
          let (r, ex', ev) := executeCellE acc.2.1 n
          (pySet acc.1 n r, ex', acc.2.2 ++ ev)) (res0, e, ev0) =
        rest.foldl
          (fun acc n =>
            let (r, ex', ev) := executeCellE acc.2.1 n
            (pySet acc.1 n r, ex', acc.2.2 ++ ev)) (pySet res0 n r, e', ev0 ++ ev) := by
      simp [List.foldl_cons, hx]
    rw [hstep, ih e' (pySet res0 n r) (ev0 ++ ev) (List.nodup_cons.mp hnd).2
      (by
        intro m hm
        have hne : m ≠ n := fun hh => hnrest (hh ▸ hm)
        rw [pyGet_pySet_ne res0 n m r hne]
        exact hfresh m (List.mem_cons_of_mem _ hm))]
    have hcs : callSeq e (n :: rest) =
        ((n, r, ev) :: (callSeq e' rest).1, (callSeq e' rest).2) := by
      simp [callSeq, hx]
    rw [hcs, pySet_append_fresh res0 n r (hfresh n (List.mem_cons_self _ _))]
    simp [List.append_assoc]

/-- C8: for every link of an executor chain (base or decorator) and
every duplicate-free list of cell names, `execute_many` returns exactly
the name-to-result mapping of executing the cells one at a time through
that same link's own `execute_cell`, in list order, with the final
executor state and the concatenated per-cell side effects (logging,
writes, connects) identical — decorator behavior applies the same in
bulk as one at a time. -/
theorem claim8_execute_many_via_own_execute_cell (e : Exec) (names : List PyStr)
    (h : names.Nodup) :
    executeManyE e names =
      ((callSeq e names).1.map (fun t => (t.1, t.2.1)),
       (callSeq e names).2,
       ((callSeq e names).1.map (fun t => t.2.2)).flatten) := by
  have haux := executeManyE_aux names e [] [] h (fun n _ => rfl)
  simpa [executeManyE] using haux

/-- Witness for C8: bulk execution on a decorated chain over two
in-memory cells equals the one-at-a-time composition. -/
theorem claim8_execute_many_via_own_execute_cell_witness :
    executeManyE chainEx [strL "q1", strL "q2"] =
      ((callSeq chainEx [strL "q1", strL "q2"]).1.map (fun t => (t.1, t.2.1)),
       (callSeq chainEx [strL "q1", strL "q2"]).2,
       ((callSeq chainEx [strL "q1", strL "q2"]).1.map (fun t => t.2.2)).flatten) :=
  claim8_execute_many_via_own_execute_cell chainEx [strL "q1", strL "q2"] (by decide)

/-! ## Claim C4: watcher diff and batch execution -/

theorem noDupKeys_foldPySet {α β γ : Type} [DecidableEq α] (l : List γ)
    (key : γ → α) (val : γ → β) :
    ∀ d0 : List (α × β), NoDupKeys d0 →
      NoDupKeys (l.foldl (fun d c => pySet d (key c) (val c)) d0) := by
  induction l with
  | nil => intro d0 h; exact h
  | cons c t ih =>
    intro d0 h
    exact ih _ (noDupKeys_pySet d0 (key c) (val c) h)

theorem noDupKeys_currentCellsOf (parsed : FileModel) :
    NoDupKeys (currentCellsOf parsed) :=
  noDupKeys_foldPySet parsed (·.cell_name) (·.text) [] (by simp [NoDupKeys, keysOf])

theorem callSeq_names (names : List PyStr) :
    ∀ e : Exec, ((callSeq e names).1).map (·.1) = names := by
  induction names with
  | nil => intro e; rfl
  | cons n rest ih =>
    intro e
    rcases hx : executeCellE e n with ⟨r, e', ev⟩
    simp [callSeq, hx, ih]

theorem detectChanged_spec (prev : List (PyStr × PyStr)) (parsed : FileModel) :
    (∀ n : PyStr, n ∈ (detectChangedCells prev parsed).1 ↔
      ∃ t, pyGet? (currentCellsOf parsed) n = some t ∧
        (pyGet? prev n = none ∨ ∃ pt, pyGet? prev n = some pt ∧ pt ≠ t)) ∧
    (∀ n : PyStr, n ∈ (detectChangedCells prev parsed).2.1 ↔
      ∃ pt, (n, pt) ∈ prev ∧ pyGet? (currentCellsOf parsed) n = none) ∧
    (detectChangedCells prev parsed).2.2 = currentCellsOf parsed := by
  have hnd := noDupKeys_currentCellsOf parsed
  refine ⟨?_, ?_, rfl⟩
  · intro n
    constructor
    · intro hn
      obtain ⟨p, hp, hpn⟩ := List.mem_map.mp hn
      obtain ⟨hpc, hP⟩ := List.mem_filter.mp hp
      refine ⟨p.2, ?_, ?_⟩
      · apply (pyGet_eq_some_iff_mem _ _ _ hnd).mpr
        rw [← hpn]
        exact hpc
      · rw [← hpn]
        cases hprev : pyGet? prev p.1 with
        | none => exact Or.inl rfl
        | some q =>
          right
          refine ⟨q, rfl, ?_⟩
          simp only [hprev] at hP
          simpa using hP
    · rintro ⟨t, hcur, hcase⟩
      refine List.mem_map.mpr ⟨(n, t), List.mem_filter.mpr
        ⟨(pyGet_eq_some_iff_mem _ _ _ hnd).mp hcur, ?_⟩, rfl⟩
      rcases hcase with hnone | ⟨pt, hsome, hne⟩
      · simp only [hnone]
      · simp only [hsome]
        simpa using hne
  · intro n
    constructor
    · intro hn
      obtain ⟨p, hp, hpn⟩ := List.mem_map.mp hn
      obtain ⟨hpc, hP⟩ := List.mem_filter.mp hp
      refine ⟨p.2, ?_, ?_⟩
      · rw [← hpn]
        exact hpc
      · rw [← hpn]
        exact Option.isNone_iff_eq_none.mp hP
    · rintro ⟨pt, hmem, hnone⟩
      exact List.mem_map.mpr ⟨(n, pt), List.mem_filter.mpr
        ⟨hmem, Option.isNone_iff_eq_none.mpr hnone⟩, rfl⟩

/-- C4: on an accepted modification whose refresh succeeds, the execute
set is exactly the names now present that are new or have different raw
text (added together with changed, in current-document order); removed
names are reported but satisfy the removed characterization and are
never in the execute set; the remembered previous-cell mapping is
replaced by the new full mapping whatever the per-cell execution
outcomes are; and every cell of the execute set is attempted even when
earlier ones fail (the result list covers the execute set exactly, in
order). -/
theorem claim4_watcher_diff (w : Watcher) (newParsed : FileModel)
    (w' : Watcher) (changed removed : List PyStr)
    (results : List (PyStr × Except ExecErr RunResult))
    (hrun : onModifiedAccepted w newParsed = .ok (w', changed, removed, results)) :
    (∀ n : PyStr, n ∈ changed ↔ ∃ t, pyGet? (currentCellsOf newParsed) n = some t ∧
      (pyGet? w.previous_cells n = none ∨
        ∃ pt, pyGet? w.previous_cells n = some pt ∧ pt ≠ t)) ∧
    (∀ n : PyStr, n ∈ removed ↔ ∃ pt, (n, pt) ∈ w.previous_cells ∧
      pyGet? (currentCellsOf newParsed) n = none) ∧
    (∀ n : PyStr, n ∈ removed → n ∉ changed) ∧
    w'.previous_cells = currentCellsOf newParsed ∧
    results.map (·.1) = changed := by
  obtain ⟨hch, hrm, hcur⟩ := detectChanged_spec w.previous_cells newParsed
  rcases hr : refreshE w.executor newParsed with ⟨res, ex'⟩
  cases res with
  | error errs =>
    exfalso
    simp [onModifiedAccepted, hr] at hrun
  | ok u =>
    rcases hd : detectChangedCells w.previous_cells newParsed with
      ⟨changedD, removedD, currentD⟩
    rcases hc2 : callSeq ex' changedD with ⟨trips, ex''⟩
    have hrun' : Except.ok (ε := List CellValidationError × Watcher)
        ((⟨currentD, ex''⟩ : Watcher), changedD, removedD,
          trips.map (fun t => (t.1, t.2.1))) =
        .ok (w', changed, removed, results) := by
      rw [← hrun]
      simp [onModifiedAccepted, hr, hd, hc2]
    injection hrun' with hrun''
    injection hrun'' with hw hrest
    injection hrest with hchanged hrest'
    injection hrest' with hremoved hresults
    rw [hd] at hch hrm hcur
    simp only at hch hrm hcur
    subst hchanged hremoved hresults hw
    refine ⟨hch, hrm, ?_, ?_, ?_⟩
    · intro n hnr hnc
      obtain ⟨t, hcurt, -⟩ := (hch n).mp hnc
      obtain ⟨pt, -, hnone⟩ := (hrm n).mp hnr
      rw [hcurt] at hnone
      exact Option.noConfusion hnone
    · rw [← hcur]
    · have := callSeq_names changedD ex'
      rw [hc2] at this
      simp only at this
      rw [← this]
      simp [List.map_map, Function.comp]

/-- Witness for C4, at the spec's diff example: previous `{q1: A}`, new
snapshot `{q1: B, q2: C}` — the execute set is `[q1, q2]` (changed plus
added), nothing is removed, the remembered mapping becomes the new full
mapping, and both cells are attempted. -/
theorem claim4_watcher_diff_witness :
    ∃ (w' : Watcher) (results : List (PyStr × Except ExecErr RunResult)),
      onModifiedAccepted watcherEx newDocEx =
        .ok (w', [strL "q1", strL "q2"], [], results) ∧
      w'.previous_cells = currentCellsOf newDocEx ∧
      results.map (·.1) = [strL "q1", strL "q2"] := by
  have h := claim4_watcher_diff watcherEx newDocEx _ _ _ _ rfl
  exact ⟨_, _, rfl, h.2.2.2.1, h.2.2.2.2⟩

/-! ## Claim C7: connection-string resolution -/

theorem startsWith_ws_drop_left (x y pre : PyStr)
    (hy : ∀ c ∈ y, pyIsWS c = true) (hpre : ∀ c ∈ pre, pyIsWS c = false)
    (h : startsWithS (y ++ x) pre = true) : startsWithS x pre = true := by
  cases y with
  | nil => exact h
  | cons c t =>
    cases pre with
    | nil => cases x <;> rfl
    | cons p q =>
      exfalso
      simp [startsWithS] at h
      obtain ⟨hcp, -⟩ := h
      subst hcp
      have h1 := hy c (List.mem_cons_self _ _)
      have h2 := hpre c (List.mem_cons_self _ _)
      rw [h1] at h2
      exact Bool.noConfusion h2

theorem startsWith_ws_drop_right (pre : PyStr) :
    ∀ (x y : PyStr), (∀ c ∈ y, pyIsWS c = true) →
      (∀ c ∈ pre, pyIsWS c = false) →
      startsWithS (x ++ y) pre = true → startsWithS x pre = true := by
  induction pre with
  | nil => intro x y _ _ _; cases x <;> rfl
  | cons p q ih =>
    intro x y hy hpre h
    cases x with
    | nil =>
      exfalso
      cases y with
      | nil => simp [startsWithS] at h
      | cons c t =>
        simp [startsWithS] at h
        obtain ⟨hcp, -⟩ := h
        subst hcp
        have h1 := hy c (List.mem_cons_self _ _)
        have h2 := hpre c (List.mem_cons_self _ _)
        rw [h1] at h2
        exact Bool.noConfusion h2
    | cons a t =>
      simp only [List.cons_append, startsWithS, Bool.and_eq_true] at h ⊢
      refine ⟨h.1, ?_⟩
      exact ih t y hy (fun c hc => hpre c (List.mem_cons_of_mem _ hc)) h.2

theorem endsWith_ws_drop_left (x y suf : PyStr)
    (hy : ∀ c ∈ y, pyIsWS c = true) (hsuf : ∀ c ∈ suf, pyIsWS c = false)
    (h : endsWithS (y ++ x) suf = true) : endsWithS x suf = true := by
  unfold endsWithS at h ⊢
  rw [List.reverse_append] at h
  exact startsWith_ws_drop_right suf.reverse x.reverse y.reverse
    (fun c hc => hy c (List.mem_reverse.mp hc))
    (fun c hc => hsuf c (List.mem_reverse.mp hc)) h

theorem endsWith_ws_drop_right (x y suf : PyStr)
    (hy : ∀ c ∈ y, pyIsWS c = true) (hsuf : ∀ c ∈ suf, pyIsWS c = false)
    (h : endsWithS (x ++ y) suf = true) : endsWithS x suf = true := by
  unfold endsWithS at h ⊢
  rw [List.reverse_append] at h
  exact startsWith_ws_drop_left x.reverse y.reverse suf.reverse
    (fun c hc => hy c (List.mem_reverse.mp hc))
    (fun c hc => hsuf c (List.mem_reverse.mp hc)) h

theorem stripRight_decomp (l : PyStr) :
    l = stripRightS l ++ (l.reverse.takeWhile pyIsWS).reverse ∧
      ∀ c ∈ (l.reverse.takeWhile pyIsWS).reverse, pyIsWS c = true := by
  constructor
  · conv_lhs => rw [← List.reverse_reverse l,
      ← List.takeWhile_append_dropWhile (p := pyIsWS) (l := l.reverse)]
    rw [List.reverse_append]
    rfl
  · intro c hc
    exact List.mem_takeWhile_imp (List.mem_reverse.mp hc)

theorem endsWith_pyStrip (l suf : PyStr) (hsuf : ∀ c ∈ suf, pyIsWS c = false)
    (h : endsWithS l suf = true) : endsWithS (pyStrip l) suf = true := by
  have h1 : endsWithS (l.dropWhile pyIsWS) suf = true := by
    have hdec : l = l.takeWhile pyIsWS ++ l.dropWhile pyIsWS :=
      (List.takeWhile_append_dropWhile ..).symm
    rw [hdec] at h
    exact endsWith_ws_drop_left _ _ _ (fun c hc => List.mem_takeWhile_imp hc) hsuf h
  obtain ⟨hdec2, hws2⟩ := stripRight_decomp (l.dropWhile pyIsWS)
  rw [hdec2] at h1
  exact endsWith_ws_drop_right _ _ _ hws2 hsuf h1

theorem toLower_ws_fixed (c : Char) (hc : pyIsWS c = true) : Char.toLower c = c := by
  by_cases h1 : c = ' '
  · subst h1; decide
  by_cases h2 : c = '\t'
  · subst h2; decide
  by_cases h3 : c = '\n'
  · subst h3; decide
  by_cases h4 : c = '\r'
  · subst h4; decide
  by_cases h5 : c = '\x0b'
  · subst h5; decide
  by_cases h6 : c = '\x0c'
  · subst h6; decide
  exfalso
  unfold pyIsWS at hc
  simp [h1, h2, h3, h4, h5, h6] at hc

theorem startsWith_lower_pyStrip (s : PyStr)
    (h : startsWithS (pyLower s) (strL "bigquery://") = true) :
    startsWithS (pyLower (pyStrip s)) (strL "bigquery://") = true := by
  have hpre : ∀ c ∈ strL "bigquery://", pyIsWS c = false := by decide
  have hd1 : s = s.takeWhile pyIsWS ++ s.dropWhile pyIsWS :=
    (List.takeWhile_append_dropWhile ..).symm
  obtain ⟨hd2, hw2⟩ := stripRight_decomp (s.dropWhile pyIsWS)
  have hsplit : pyLower s =
      (s.takeWhile pyIsWS).map Char.toLower ++
      ((stripRightS (s.dropWhile pyIsWS)).map Char.toLower ++
        (((s.dropWhile pyIsWS).reverse.takeWhile pyIsWS).reverse).map Char.toLower) := by
    rw [pyLower, ← List.map_append, ← List.map_append]
    congr 1
    rw [← hd2]
    exact hd1
  rw [hsplit] at h
  have h2 := startsWith_ws_drop_left _ _ _
    (by
      intro c hc
      obtain ⟨d, hd, rfl⟩ := List.mem_map.mp hc
      have hwd := List.mem_takeWhile_imp hd
      rw [toLower_ws_fixed d hwd]
      exact hwd) hpre h
  have h3 := startsWith_ws_drop_right _ _ _
    (by
      intro c hc
      obtain ⟨d, hd, rfl⟩ := List.mem_map.mp hc
      have hwd := hw2 d hd
      rw [toLower_ws_fixed d hwd]
      exact hwd) hpre h2
  exact h3

/-- C7: resolution tries the registered matchers in registration order
with the first match winning; any string ending (case-insensitively) in
`.ddb` or `.duckdb` or whose lowercase form is `:memory:` resolves to
the DuckDB backend; a string beginning with `bigquery://`
(case-insensitively) that the earlier DuckDB matcher does not claim
resolves to the BigQuery backend; and when no matcher matches the
raised error message names the input connection string and lists all
supported formats. -/
theorem claim7_resolution (s : PyStr) :
    (resolveConn s = (if isDuckdbConn s then .ok (strL "duckdb")
      else if isBigqueryConn s then .ok (strL "bigquery")
      else .error (cannotInferMsg s))) ∧
    ((endsWithS (pyLower s) (strL ".ddb") = true ∨
      endsWithS (pyLower s) (strL ".duckdb") = true ∨
      pyLower s = strL ":memory:") → resolveConn s = .ok (strL "duckdb")) ∧
    (startsWithS (pyLower s) (strL "bigquery://") = true →
      isDuckdbConn s = false → resolveConn s = .ok (strL "bigquery")) ∧
    (isDuckdbConn s = false → isBigqueryConn s = false →
      resolveConn s = .error (strL "Cannot infer backend from connection string: '"
        ++ s ++ strL "'\nSupported formats:\n" ++ supportedFormats)) := by
  refine ⟨?_, ?_, ?_, ?_⟩
  · rfl
  · intro hdisj
    have hd : isDuckdbConn s = true := by
      rcases hdisj with h | h | h
      · have hs := endsWith_pyStrip (pyLower s) (strL ".ddb") (by decide) h
        simp [isDuckdbConn, hs]
      · have hs := endsWith_pyStrip (pyLower s) (strL ".duckdb") (by decide) h
        simp [isDuckdbConn, hs]
      · have hmem : pyStrip (pyLower s) = strL ":memory:" := by
          rw [h]; decide
        simp [isDuckdbConn, hmem]
    simp [resolveConn, resolveWith, connResolvers, hd]
  · intro hb hnd
    have hbq : isBigqueryConn s = true := startsWith_lower_pyStrip s hb
    simp [resolveConn, resolveWith, connResolvers, hnd, hbq]
  · intro hnd hnb
    simp [resolveConn, resolveWith, connResolvers, hnd, hnb, cannotInferMsg]

/-- Witness for C7: concrete resolutions including mixed case and the
unrecognized-extension failure. -/
theorem claim7_resolution_witness :
    resolveConn (strL "./x.DDB") = .ok (strL "duckdb") ∧
    resolveConn (strL "./y.duckdb") = .ok (strL "duckdb") ∧
    resolveConn (strL ":memory:") = .ok (strL "duckdb") ∧
    resolveConn (strL "bigquery://proj/loc") = .ok (strL "bigquery") ∧
    resolveConn (strL "./data.xyz") =
      .error (strL "Cannot infer backend from connection string: '"
        ++ strL "./data.xyz" ++ strL "'\nSupported formats:\n" ++ supportedFormats) := by
  refine ⟨?_, ?_, ?_, ?_, ?_⟩
  · exact (claim7_resolution (strL "./x.DDB")).2.1 (Or.inl (by decide))
  · exact (claim7_resolution (strL "./y.duckdb")).2.1 (Or.inr (Or.inl (by decide)))
  · exact (claim7_resolution (strL ":memory:")).2.1 (Or.inr (Or.inr (by decide)))
  · exact (claim7_resolution (strL "bigquery://proj/loc")).2.2.1 (by decide) (by decide)
  · exact (claim7_resolution (strL "./data.xyz")).2.2.2 (by decide) (by decide)
